import Mathlib

/-!
Shallow embedding of the core of the `curator` content-curation pipeline
(`src/curator/...`) and proofs about its claimed properties.

Conventions used throughout:
* Python `int` becomes `Int` (or `Nat` where the source can only produce
  non-negative values); machine overflow does not arise in the modelled code.
* Python list indexing `xs[i]` (which accepts negative indices and raises
  `IndexError` otherwise) becomes `pyGet : List α → Int → Option α`,
  with `none` standing for the raised exception.
* Python `float` arithmetic on the small quantities appearing here
  (`len(urls) * 0.5`, relevance scores, backoff seconds) is modelled with `ℚ`;
  every float comparison performed by the modelled code is exact at these
  magnitudes, so the rational model coincides with the float semantics.
* `datetime.date` values are modelled by their proleptic-Gregorian ordinal
  (`date.toordinal`, days since 0001-01-01) as an `Int`;
  `date.fromisoformat` is modelled by a strict `YYYY-MM-DD` parser.
-/

namespace Curator

/-! ### SHA-256 (as used by `hashlib.sha256` in `compute_cluster_id`) -/

/-- 2^32, the word modulus of SHA-256. -/
def M32 : Nat := 4294967296

/-- Truncate to a 32-bit word. -/
def w32 (n : Nat) : Nat := n % M32

/-- Logical right shift on 32-bit words. -/
def shr32 (x n : Nat) : Nat := x / 2 ^ n

/-- Right rotation on 32-bit words. -/
def rotr32 (x n : Nat) : Nat := w32 (x / 2 ^ n + (x % 2 ^ n) * 2 ^ (32 - n))

/-- Bitwise complement on 32-bit words. -/
def not32 (x : Nat) : Nat := Nat.xor x (M32 - 1)

/-- SHA-256 `Ch` function. -/
def shaCh (x y z : Nat) : Nat := Nat.xor (Nat.land x y) (Nat.land (not32 x) z)

/-- SHA-256 `Maj` function. -/
def shaMaj (x y z : Nat) : Nat :=
  Nat.xor (Nat.xor (Nat.land x y) (Nat.land x z)) (Nat.land y z)

/-- SHA-256 big sigma 0. -/
def bigSigma0 (x : Nat) : Nat := Nat.xor (Nat.xor (rotr32 x 2) (rotr32 x 13)) (rotr32 x 22)

/-- SHA-256 big sigma 1. -/
def bigSigma1 (x : Nat) : Nat := Nat.xor (Nat.xor (rotr32 x 6) (rotr32 x 11)) (rotr32 x 25)

/-- SHA-256 small sigma 0. -/
def smallSigma0 (x : Nat) : Nat := Nat.xor (Nat.xor (rotr32 x 7) (rotr32 x 18)) (shr32 x 3)

/-- SHA-256 small sigma 1. -/
def smallSigma1 (x : Nat) : Nat := Nat.xor (Nat.xor (rotr32 x 17) (rotr32 x 19)) (shr32 x 10)

/-- The 64 SHA-256 round constants. -/
def shaK : List Nat := [
  1116352408, 1899447441, 3049323471, 3921009573,
  961987163, 1508970993, 2453635748, 2870763221,
  3624381080, 310598401, 607225278, 1426881987,
  1925078388, 2162078206, 2614888103, 3248222580,
  3835390401, 4022224774, 264347078, 604807628,
  770255983, 1249150122, 1555081692, 1996064986,
  2554220882, 2821834349, 2952996808, 3210313671,
  3336571891, 3584528711, 113926993, 338241895,
  666307205, 773529912, 1294757372, 1396182291,
  1695183700, 1986661051, 2177026350, 2456956037,
  2730485921, 2820302411, 3259730800, 3345764771,
  3516065817, 3600352804, 4094571909, 275423344,
  430227734, 506948616, 659060556, 883997877,
  958139571, 1322822218, 1537002063, 1747873779,
  1955562222, 2024104815, 2227730452, 2361852424,
  2428436474, 2756734187, 3204031479, 3329325298]

/-- SHA-256 working state: eight 32-bit words. -/
structure ShaState where
  a : Nat
  b : Nat
  c : Nat
  d : Nat
  e : Nat
  f : Nat
  g : Nat
  h : Nat
deriving Repr, DecidableEq

/-- The SHA-256 initial hash value. -/
def shaH0 : ShaState where
  a := 1779033703
  b := 3144134277
  c := 1013904242
  d := 2773480762
  e := 1359893119
  f := 2600822924
  g := 528734635
  h := 1541459225

/-- One SHA-256 compression round with round constant `k` and schedule word `w`. -/
def shaRound (s : ShaState) (k w : Nat) : ShaState :=
  let t1 := w32 (s.h + bigSigma1 s.e + shaCh s.e s.f s.g + k + w)
  let t2 := w32 (bigSigma0 s.a + shaMaj s.a s.b s.c)
  ⟨w32 (t1 + t2), s.a, s.b, s.c, w32 (s.d + t1), s.e, s.f, s.g⟩

/-- Interpret four bytes as a big-endian 32-bit word. -/
def word4 : List Nat → Nat
  | b0 :: b1 :: b2 :: b3 :: _ => ((b0 * 256 + b1) * 256 + b2) * 256 + b3
  | _ => 0

/-- Split a 64-byte block into its sixteen big-endian message words. -/
def blockWords (block : List Nat) : List Nat :=
  (List.range 16).map (fun i => word4 (block.drop (4 * i)))

/-- Extend sixteen message words to the full 64-word schedule
(`W[i] = σ1 W[i-2] + W[i-7] + σ0 W[i-15] + W[i-16]` mod 2^32). -/
def extendSchedule (w : List Nat) : Nat → List Nat
  | 0 => w
  | n + 1 =>
    let ws := extendSchedule w n
    let i := ws.length
    ws ++ [w32 (smallSigma1 (ws.getD (i - 2) 0) + ws.getD (i - 7) 0 +
      smallSigma0 (ws.getD (i - 15) 0) + ws.getD (i - 16) 0)]

/-- Compress one 64-byte block into the running hash state. -/
def shaCompress (st : ShaState) (block : List Nat) : ShaState :=
  let ws := extendSchedule (blockWords block) 48
  let fin := (shaK.zip ws).foldl (fun s kw => shaRound s kw.1 kw.2) st
  ⟨w32 (st.a + fin.a), w32 (st.b + fin.b), w32 (st.c + fin.c), w32 (st.d + fin.d),
   w32 (st.e + fin.e), w32 (st.f + fin.f), w32 (st.g + fin.g), w32 (st.h + fin.h)⟩

/-- SHA-256 padding: append `0x80`, zero bytes up to 56 mod 64, then the
64-bit big-endian bit length of the message. -/
def shaPad (msg : List Nat) : List Nat :=
  let L := msg.length
  let zeros := (55 + 64 - L % 64) % 64
  msg ++ [0x80] ++ List.replicate zeros 0 ++
    (List.range 8).map (fun i => 8 * L / 2 ^ (8 * (7 - i)) % 256)

/-- Split a byte list into consecutive 64-byte blocks; structural recursion on
a fuel bounded by the list length (each step consumes at least one byte). -/
def chunksFuel : Nat → List Nat → List (List Nat)
  | 0, _ => []
  | _, [] => []
  | fuel + 1, b :: bs => (b :: bs).take 64 :: chunksFuel fuel ((b :: bs).drop 64)

/-- Split a byte list into consecutive 64-byte blocks. -/
def chunks64 (l : List Nat) : List (List Nat) := chunksFuel l.length l

/-- Big-endian bytes of a 32-bit word. -/
def wordBytes (w : Nat) : List Nat :=
  [w / 16777216 % 256, w / 65536 % 256, w / 256 % 256, w % 256]

/-- SHA-256 of a byte string, as the 32 digest bytes. -/
def sha256 (msg : List Nat) : List Nat :=
  let fin := (chunks64 (shaPad msg)).foldl shaCompress shaH0
  wordBytes fin.a ++ wordBytes fin.b ++ wordBytes fin.c ++ wordBytes fin.d ++
    wordBytes fin.e ++ wordBytes fin.f ++ wordBytes fin.g ++ wordBytes fin.h

/-- The sixteen lowercase hex digits, `0`–`9` then `a`–`f`. -/
def hexDigits : List Char := (List.range 16).map Nat.digitChar

/-- The hex digit of a value below 16 (defaulting to `'0'`). -/
def hexDigit (n : Nat) : Char := hexDigits.getD n '0'

/-- Lowercase hex rendering of a byte string, two digits per byte
(`hashlib`'s `hexdigest`). -/
def bytesToHex : List Nat → List Char
  | [] => []
  | b :: bs => hexDigit (b / 16 % 16) :: hexDigit (b % 16) :: bytesToHex bs

/-- UTF-8 encoding of one character (Python `str.encode`). -/
def utf8Char (c : Char) : List Nat :=
  let n := c.toNat
  if n < 0x80 then [n]
  else if n < 0x800 then [0xc0 + n / 64, 0x80 + n % 64]
  else if n < 0x10000 then [0xe0 + n / 4096, 0x80 + n / 64 % 64, 0x80 + n % 64]
  else [0xf0 + n / 262144, 0x80 + n / 4096 % 64, 0x80 + n / 64 % 64, 0x80 + n % 64]

/-- UTF-8 bytes of a string (Python `str.encode()`). -/
def strBytes (s : String) : List Nat := s.data.flatMap utf8Char

/-- `hashlib.sha256(s.encode()).hexdigest()` as a list of characters. -/
def sha256HexOf (s : String) : List Char := bytesToHex (sha256 (strBytes s))

/-! ### String comparison (Python compares strings by code point) -/

/-- Strict lexicographic order on character lists by code point. -/
def lexLt : List Char → List Char → Bool
  | _, [] => false
  | [], _ :: _ => true
  | x :: xs, y :: ys =>
    if x < y then true
    else if x = y then lexLt xs ys
    else false

/-- Python `a < b` on strings: code-point lexicographic. -/
def strLt (a b : String) : Bool := lexLt a.data b.data

/-- Python `a <= b` on strings. -/
def strLe (a b : String) : Bool := a == b || strLt a b

/-! ### `compute_cluster_id` (src/curator/stages/architect.py) -/

/-- Python `sorted(set(urls))`: the distinct urls in ascending lexicographic
order (removing duplicates and sorting yields the unique sorted
duplicate-free list, independent of the iteration order of the Python set). -/
def sortedUrls (urls : List String) : List String :=
  List.insertionSort (fun a b => strLe a b = true) urls.dedup

/-- `compute_cluster_id`: `hashlib.sha256("\n".join(sorted(set(urls))).encode()).hexdigest()[:16]`. -/
def compute_cluster_id (urls : List String) : String :=
  String.mk ((sha256HexOf (String.intercalate "\n" (sortedUrls urls))).take 16)

/-! ### Data model (src/curator/models.py), restricted to the fields the
modelled fragments read or write.  Python `float` scores become `ℚ`. -/

structure FilteredCandidate where
  title : String := ""
  url : String := ""
  snippet : String := ""
  source_language : String := "en"
  interest_query : String := ""
  relevance_score : ℚ := 0
deriving Repr, DecidableEq

structure DiscoveryCandidate where
  title : String := ""
  url : String := ""
  snippet : String := ""
  source_language : String := "en"
  interest_query : String := ""
deriving Repr, DecidableEq

structure HistoryEntry where
  cluster_id : String
  label : String
  urls : List String := []
  first_seen : String := ""
  last_seen : String := ""
deriving Repr, DecidableEq

structure EventCluster where
  cluster_id : String
  label : String
  candidates : List FilteredCandidate := []
  best_url : String := ""
  is_duplicate_of_history : Bool := false
deriving Repr, DecidableEq

/-- The pydantic `ClusterItem` parsed from the grouping oracle's response
(defined inline in `Architect.run`): indices are Python `int`s. -/
structure RawClusterItem where
  label : String := ""
  candidate_indices : List Int := []
  best_index : Int := 0
deriving Repr, DecidableEq

/-- `ArchitectOutput` without `api_calls` (the Gemini call of step 1 is an
external effect; only step 2, the pure clustering loop, is modelled). -/
structure ArchitectOutput where
  clusters : List EventCluster := []
  deduped_count : Nat := 0
deriving Repr, DecidableEq

structure SentinelOutput where
  passed : List FilteredCandidate := []
  filtered_count : Nat := 0
  api_calls : Nat := 0
deriving Repr, DecidableEq

structure ArchiveEntry where
  date : String
  file : String
  story_count : Nat := 0
deriving Repr, DecidableEq

/-! ### Architect step 2 (src/curator/stages/architect.py, `Architect.run`) -/

/-- Python list indexing `xs[i]`: negative indices count from the end;
`none` models a raised `IndexError`. -/
def pyGet {α : Type _} (xs : List α) (i : Int) : Option α :=
  if 0 ≤ i then xs.get? i.toNat
  else if 0 ≤ i + xs.length then xs.get? (i + xs.length).toNat
  else none

/-- The `history_urls` set accumulated from the dedup window, modelled as the
concatenation of all entries' url lists (membership agrees with the set union). -/
def historyUrlsOf (window : List HistoryEntry) : List String :=
  (window.map HistoryEntry.urls).flatten

/-- `[candidates[idx] for idx in rc.candidate_indices if idx < len(candidates)]`;
`none` models an `IndexError` (an index below `-len(candidates)`). -/
def memberCandidates (cands : List FilteredCandidate) (idxs : List Int) :
    Option (List FilteredCandidate) :=
  (idxs.filter (fun i => i < (cands.length : Int))).mapM (pyGet cands)

/-- `overlap > len(urls) * 0.5` with `overlap = sum(1 for u in urls if u in history_urls)`.
The float comparison is exact at these magnitudes and holds iff
`2 * overlap > len(urls)`, the decidable integer form used here. -/
def isDupOfHistory (historyUrls : List String) (urls : List String) : Bool :=
  decide (2 * urls.countP (fun u => historyUrls.contains u) > urls.length)

/-- One iteration of the `for rc in raw_clusters` loop body: `none` models a
raised `IndexError`, `some none` the `continue` on an empty member list, and
`some (some c)` a built `EventCluster`.  The best index is
`rc.best_index if rc.best_index < len(candidates) else rc.candidate_indices[0]`
and the representative is
`candidates[best_idx].url if best_idx < len(candidates) else urls[0]`. -/
def processRawCluster (cands : List FilteredCandidate) (historyUrls : List String)
    (rc : RawClusterItem) : Option (Option EventCluster) :=
  match memberCandidates cands rc.candidate_indices with
  | none => none
  | some cc =>
    if cc.isEmpty then some none
    else
      match (if rc.best_index < (cands.length : Int) then some rc.best_index
             else pyGet rc.candidate_indices 0) with
      | none => none
      | some bestIdx =>
        match (if bestIdx < (cands.length : Int) then
                 (pyGet cands bestIdx).map FilteredCandidate.url
               else pyGet (cc.map FilteredCandidate.url) 0) with
        | none => none
        | some bestUrl =>
          some (some { cluster_id := compute_cluster_id (cc.map FilteredCandidate.url),
                       label := rc.label,
                       candidates := cc, best_url := bestUrl,
                       is_duplicate_of_history :=
                         isDupOfHistory historyUrls (cc.map FilteredCandidate.url) })

/-- The step-2 accumulation loop: surviving clusters are appended in order,
duplicate clusters are only counted. -/
def architectLoop (cands : List FilteredCandidate) (historyUrls : List String) :
    List RawClusterItem → List EventCluster → Nat → Option (List EventCluster × Nat)
  | [], clusters, deduped => some (clusters, deduped)
  | rc :: rest, clusters, deduped => do
    match ← processRawCluster cands historyUrls rc with
    | none => architectLoop cands historyUrls rest clusters deduped
    | some c =>
      if c.is_duplicate_of_history then
        architectLoop cands historyUrls rest clusters (deduped + 1)
      else
        architectLoop cands historyUrls rest (clusters ++ [c]) deduped

/-- Step 2 of `Architect.run`, from the raw grouping decision onwards. -/
def architectStep2 (cands : List FilteredCandidate) (rawClusters : List RawClusterItem)
    (window : List HistoryEntry) : Option ArchitectOutput := do
  let (clusters, deduped) ← architectLoop cands (historyUrlsOf window) rawClusters [] 0
  pure { clusters := clusters, deduped_count := deduped }

/-- The degraded grouping used when the oracle call raises: one singleton
cluster per candidate, labeled by its title, with itself as representative. -/
def fallbackClusters (cands : List FilteredCandidate) : List RawClusterItem :=
  cands.enum.map (fun ic =>
    { label := ic.2.title, candidate_indices := [(ic.1 : Int)], best_index := (ic.1 : Int) })

/-- `Architect.run`: `oracle = none` models the Gemini call raising (fallback
to singleton clusters), `oracle = some rcs` a parsed grouping decision. -/
def architectRun (cands : List FilteredCandidate) (oracle : Option (List RawClusterItem))
    (window : List HistoryEntry) : Option ArchitectOutput :=
  if cands.isEmpty then some { clusters := [], deduped_count := 0 }
  else architectStep2 cands (oracle.getD (fallbackClusters cands)) window

/-! ### Dates (`datetime.date`, src/curator/history.py)

A `date` is modelled by its proleptic-Gregorian ordinal (`date.toordinal`);
ordinal order is date order and `today - timedelta(days=n)` is `today - n`. -/

def isLeapYear (y : Nat) : Bool := (y % 4 == 0 && y % 100 != 0) || y % 400 == 0

def daysInMonth (y m : Nat) : Nat :=
  if m == 2 then (if isLeapYear y then 29 else 28)
  else if m == 4 || m == 6 || m == 9 || m == 11 then 30
  else 31

/-- Days in year `y` before the first of month `m`. -/
def daysBeforeMonth (y m : Nat) : Nat :=
  ((List.range (m - 1)).map (fun i => daysInMonth y (i + 1))).sum

/-- `date(y, m, d).toordinal()`: days since 0001-01-01, that date being day 1. -/
def dateOrdinal (y m d : Nat) : Int :=
  (365 * (y - 1) + ((y - 1) / 4 - (y - 1) / 100) + (y - 1) / 400
    + daysBeforeMonth y m + d : Nat)

/-- Numeric value of a decimal digit character. -/
def digitVal (c : Char) : Option Nat :=
  if c.isDigit then some (c.toNat - 48) else none

/-- `date.fromisoformat`: strict `YYYY-MM-DD` with a valid calendar date
(year 1–9999).  `none` models the raised `ValueError`. -/
def parseIsoDate (s : String) : Option (Nat × Nat × Nat) :=
  match s.data with
  | [y1, y2, y3, y4, c1, m1, m2, c2, d1, d2] =>
    if c1 = '-' ∧ c2 = '-' then do
      let yv ← (digitVal y1).bind (fun a => (digitVal y2).bind (fun b =>
        (digitVal y3).bind (fun c => (digitVal y4).map (fun e => ((a * 10 + b) * 10 + c) * 10 + e))))
      let mv ← (digitVal m1).bind (fun a => (digitVal m2).map (fun b => a * 10 + b))
      let dv ← (digitVal d1).bind (fun a => (digitVal d2).map (fun b => a * 10 + b))
      if 1 ≤ yv ∧ 1 ≤ mv ∧ mv ≤ 12 ∧ 1 ≤ dv ∧ dv ≤ daysInMonth yv mv then
        some (yv, mv, dv)
      else none
    else none
  | _ => none

/-- `date.fromisoformat` composed with `toordinal`. -/
def parseDateOrd (s : String) : Option Int :=
  (parseIsoDate s).map (fun ymd => dateOrdinal ymd.1 ymd.2.1 ymd.2.2)

/-- `_parse_date(date_str, fallback)`: lenient parse, falling back on error. -/
def parse_date (dateStr : String) (fallback : Int) : Int :=
  (parseDateOrd dateStr).getD fallback

/-! ### HistoryManager (src/curator/history.py)

The manager's mutable `self._data.entries` list is passed explicitly;
`today` (ordinal, and its ISO rendering where the source uses
`date.today().isoformat()`) is a parameter. -/

/-- `apply_retention`: keep entries whose lenient last-seen is on or after
`today - retention_days`; return the new list and the removed count. -/
def apply_retention (retentionDays : Nat) (today : Int) (entries : List HistoryEntry) :
    List HistoryEntry × Nat :=
  let cutoff := today - retentionDays
  let kept := entries.filter (fun e => cutoff ≤ parse_date e.last_seen today)
  (kept, entries.length - kept.length)

/-- `get_dedup_window`: entries whose lenient last-seen is on or after
`today - dedup_window_days`. -/
def get_dedup_window (windowDays : Nat) (today : Int) (entries : List HistoryEntry) :
    List HistoryEntry :=
  entries.filter (fun e => today - windowDays ≤ parse_date e.last_seen today)

/-- `list(set(a) | set(b))`: the union's elements (Python leaves their order
unspecified; this model fixes first-occurrence order — all claims about the
merged url list are claims about its set of elements). -/
def pySetUnionList (a b : List String) : List String := (a ++ b).dedup

/-- The in-place mutation of an existing entry on a cluster-id hit:
`ex.last_seen = entry.last_seen or today; ex.urls = list(set(ex.urls) | set(entry.urls))`. -/
def mergeEntry (todayIso : String) (entry ex : HistoryEntry) : HistoryEntry :=
  { ex with
    last_seen := if entry.last_seen = "" then todayIso else entry.last_seen,
    urls := pySetUnionList ex.urls entry.urls }

/-- Replace the last entry satisfying `p` by its image under `f` (the dict
comprehension `{e.cluster_id: e for e in entries}` keeps the last entry per id,
and the source mutates that entry in place). -/
def updateLast {α : Type _} (p : α → Bool) (f : α → α) : List α → List α
  | [] => []
  | x :: xs =>
    if xs.any p then x :: updateLast p f xs
    else if p x then f x :: xs
    else x :: updateLast p f xs

/-- The body of the `for entry in entries` loop of `add_entries`. -/
def addOneEntry (todayIso : String) (st : List HistoryEntry) (entry : HistoryEntry) :
    List HistoryEntry :=
  if st.any (fun e => e.cluster_id == entry.cluster_id) then
    updateLast (fun e => e.cluster_id == entry.cluster_id) (mergeEntry todayIso entry) st
  else
    st ++ [{ entry with
      first_seen := if entry.first_seen = "" then todayIso else entry.first_seen,
      last_seen := if entry.last_seen = "" then todayIso else entry.last_seen }]

/-- `add_entries`: fold the loop body over the new entries. -/
def add_entries (todayIso : String) (st : List HistoryEntry) (entries : List HistoryEntry) :
    List HistoryEntry :=
  entries.foldl (addOneEntry todayIso) st

/-! ### Archive-index update (src/curator/pipeline.py, lines 146–152) -/

/-- `archive.digests.sort(key=lambda e: e.date, reverse=True)`: CPython's sort
is stable, so it equals stable insertion sort by descending date. -/
def sortArchiveDesc (l : List ArchiveEntry) : List ArchiveEntry :=
  List.insertionSort (fun a b => strLe b.date a.date = true) l

/-- The archive-index update: drop today's entries, prepend the fresh entry,
re-sort descending by date. -/
def updateArchive (digests : List ArchiveEntry) (today filename : String)
    (storyCount : Nat) : List ArchiveEntry :=
  let remaining := digests.filter (fun e => e.date != today)
  sortArchiveDesc (⟨today, filename, storyCount⟩ :: remaining)

/-! ### GeminiClient (src/curator/gemini.py) -/

/-- Python `needle in hay` on strings: substring containment. -/
def pyIn (needle hay : String) : Bool := decide (needle.data <:+: hay.data)

/-- `"429" in str(exc) or "RESOURCE_EXHAUSTED" in str(exc)`. -/
def isRateLimitMsg (msg : String) : Bool := pyIn "429" msg || pyIn "RESOURCE_EXHAUSTED" msg

/-- The permanently-exhausted-quota signature: rate-limited and `"limit: 0"`. -/
def isZeroQuotaMsg (msg : String) : Bool := isRateLimitMsg msg && pyIn "limit: 0" msg

/-- Outcome of one `generate_content` attempt, indexed by attempt number. -/
inductive CallOutcome where
  | success (text : String)
  | failure (msg : String)
deriving Repr, DecidableEq

def MAX_RETRIES : Nat := 5

def INITIAL_BACKOFF : ℚ := 5

/-- The retry loop from attempt `attempt` with `remaining` loop iterations
left and current `backoff`; returns the result (`none` models the final
`raise RuntimeError`) and the number of attempts issued from here on.
`time.sleep(min(backoff, 15) if is_rate_limit else backoff)` is a timing side
effect with no bearing on the result; the `backoff *= 2` doubling is threaded. -/
def retryFrom (outcomes : Nat → CallOutcome) : Nat → Nat → ℚ → Option String × Nat
  | _, 0, _ => (none, 0)
  | attempt, remaining + 1, backoff =>
    match outcomes attempt with
    | .success t => (some t, 1)
    | .failure msg =>
      if isZeroQuotaMsg msg then (none, 1)
      else if remaining = 0 then (none, 1)
      else
        let r := retryFrom outcomes (attempt + 1) remaining (backoff * 2)
        (r.1, r.2 + 1)

/-- `_call_with_retry`: up to `_MAX_RETRIES` attempts. -/
def callWithRetry (outcomes : Nat → CallOutcome) : Option String × Nat :=
  retryFrom outcomes 0 MAX_RETRIES INITIAL_BACKOFF

def CALL_DELAY : ℚ := 2

/-- The pacing sleep computed by `generate` before dispatch from the recorded
`_last_call_time` (0.0 before any call) and the sampled monotonic `now`. -/
def paceDelay (lastCallTime now : ℚ) : ℚ :=
  if lastCallTime > 0 ∧ now - lastCallTime < CALL_DELAY then
    CALL_DELAY - (now - lastCallTime)
  else 0

/-- The dispatch instant, modelling `time.sleep(d)` as resuming exactly `d`
after `now` on the same monotonic clock. -/
def dispatchTime (lastCallTime now : ℚ) : ℚ := now + paceDelay lastCallTime now

/-! ### Sentinel (src/curator/stages/sentinel.py) -/

/-- Promote a phase-1 survivor with its relevance score
(the `FilteredCandidate(...)` construction in phase 2). -/
def toFiltered (c : DiscoveryCandidate) (score : ℚ) : FilteredCandidate :=
  ⟨c.title, c.url, c.snippet, c.source_language, c.interest_query, score⟩

/-- The phase-2 scoring loop over `phase1_passed` starting at index `i`:
`score = scores[i] if i < len(scores) else 0.0`, pass iff `score >= threshold`;
returns the passed list and the count this loop adds to `filtered_count`. -/
def phase2Go (threshold : ℚ) (scores : List ℚ) :
    List DiscoveryCandidate → Nat → List FilteredCandidate × Nat
  | [], _ => ([], 0)
  | c :: cs, i =>
    let score := scores.getD i 0
    let r := phase2Go threshold scores cs (i + 1)
    if threshold ≤ score then (toFiltered c score :: r.1, r.2) else (r.1, r.2 + 1)

/-- `Sentinel.run`.  `ruleFiltered` stands for the phase-1 predicate
`is_topic_muted(persona, text) or is_topic_snoozed(persona, text)` on a
candidate's `"{title} {snippet}"` text; `scoresResult = none` models the
batch-scoring call raising (degraded all-1.0 path), `some scores` the parsed
(possibly short or empty) score array. -/
def sentinelRun (ruleFiltered : DiscoveryCandidate → Bool) (threshold : ℚ)
    (scoresResult : Option (List ℚ)) (cands : List DiscoveryCandidate) : SentinelOutput :=
  let phase1Passed := cands.filter (fun c => !ruleFiltered c)
  let filtered1 := cands.countP ruleFiltered
  if phase1Passed.isEmpty then
    { passed := [], filtered_count := filtered1, api_calls := 0 }
  else
    let scores := scoresResult.getD (List.replicate phase1Passed.length 1)
    let r := phase2Go threshold scores phase1Passed 0
    { passed := r.1, filtered_count := filtered1 + r.2, api_calls := 1 }

/-! ## Properties of the string order -/

theorem lexLt_irrefl : ∀ l : List Char, lexLt l l = false
  | [] => rfl
  | a :: as => by simp [lexLt, lexLt_irrefl as]

theorem lexLt_asymm : ∀ a b : List Char, lexLt a b = true → lexLt b a = true → False
  | [], [], h, _ => by simp [lexLt] at h
  | [], _ :: _, _, h => by simp [lexLt] at h
  | _ :: _, [], h, _ => by simp [lexLt] at h
  | x :: xs, y :: ys, h, h' => by
    simp only [lexLt] at h h'
    by_cases hxy : x < y
    · rw [if_neg (asymm hxy)] at h'
      by_cases hyx : y = x
      · exact absurd hxy (by simp [hyx, lt_irrefl])
      · simp [hyx] at h'
    · rw [if_neg hxy] at h
      by_cases hxy2 : x = y
      · subst hxy2
        rw [if_pos rfl] at h
        rw [if_neg hxy, if_pos rfl] at h'
        exact lexLt_asymm xs ys h h'
      · simp [hxy2] at h

theorem lexLt_trans : ∀ a b c : List Char,
    lexLt a b = true → lexLt b c = true → lexLt a c = true
  | [], [], _, h, _ => by simp [lexLt] at h
  | [], _ :: _, [], _, h => by simp [lexLt] at h
  | [], _ :: _, _ :: _, _, _ => rfl
  | _ :: _, [], _, h, _ => by simp [lexLt] at h
  | _ :: _, _ :: _, [], _, h => by simp [lexLt] at h
  | x :: xs, y :: ys, z :: zs, hab, hbc => by
    simp only [lexLt] at hab hbc ⊢
    by_cases hxy : x < y
    · by_cases hyz : y < z
      · simp [lt_trans hxy hyz]
      · rw [if_neg hyz] at hbc
        by_cases hyz2 : y = z
        · subst hyz2; simp [hxy]
        · simp [hyz2] at hbc
    · rw [if_neg hxy] at hab
      by_cases hxy2 : x = y
      · subst hxy2
        rw [if_pos rfl] at hab
        by_cases hyz : x < z
        · simp [hyz]
        · rw [if_neg hyz] at hbc ⊢
          by_cases hyz2 : x = z
          · subst hyz2
            rw [if_pos rfl] at hbc ⊢
            exact lexLt_trans xs ys zs hab hbc
          · simp [hyz2] at hbc
      · simp [hxy2] at hab

theorem lexLt_total_of_ne : ∀ a b : List Char,
    a ≠ b → lexLt a b = true ∨ lexLt b a = true
  | [], [], h => absurd rfl h
  | [], _ :: _, _ => Or.inl rfl
  | _ :: _, [], _ => Or.inr rfl
  | x :: xs, y :: ys, h => by
    rcases lt_trichotomy x y with hxy | hxy | hxy
    · exact Or.inl (by simp [lexLt, hxy])
    · subst hxy
      have hne : xs ≠ ys := fun hh => h (by rw [hh])
      rcases lexLt_total_of_ne xs ys hne with h1 | h1
      · exact Or.inl (by simp [lexLt, lt_irrefl, h1])
      · exact Or.inr (by simp [lexLt, lt_irrefl, h1])
    · exact Or.inr (by simp [lexLt, hxy])

theorem string_eq_of_data_eq {a b : String} (h : a.data = b.data) : a = b := by
  cases a; cases b; exact congrArg String.mk h

theorem strLe_total (a b : String) : strLe a b = true ∨ strLe b a = true := by
  by_cases h : a = b
  · exact Or.inl (by simp [strLe, h])
  · have hd : a.data ≠ b.data := fun hd => h (string_eq_of_data_eq hd)
    rcases lexLt_total_of_ne a.data b.data hd with h1 | h1
    · exact Or.inl (by simp [strLe, strLt, h1])
    · exact Or.inr (by simp [strLe, strLt, h1])

theorem strLe_trans (a b c : String) (hab : strLe a b = true) (hbc : strLe b c = true) :
    strLe a c = true := by
  simp only [strLe, Bool.or_eq_true, beq_iff_eq] at hab hbc ⊢
  rcases hab with rfl | hab
  · exact hbc
  · rcases hbc with rfl | hbc
    · exact Or.inr hab
    · exact Or.inr (lexLt_trans a.data b.data c.data hab hbc)

theorem strLe_antisymm (a b : String) (hab : strLe a b = true) (hba : strLe b a = true) :
    a = b := by
  simp only [strLe, Bool.or_eq_true, beq_iff_eq] at hab hba
  rcases hab with rfl | hab
  · rfl
  · rcases hba with rfl | hba
    · rfl
    · exact (lexLt_asymm a.data b.data hab hba).elim

instance : IsTotal String (fun a b => strLe a b = true) := ⟨strLe_total⟩

instance : IsTrans String (fun a b => strLe a b = true) := ⟨strLe_trans⟩

instance : IsAntisymm String (fun a b => strLe a b = true) := ⟨strLe_antisymm⟩

instance : IsTotal ArchiveEntry (fun a b => strLe b.date a.date = true) :=
  ⟨fun a b => strLe_total b.date a.date⟩

instance : IsTrans ArchiveEntry (fun a b => strLe b.date a.date = true) :=
  ⟨fun a b c hab hbc => strLe_trans c.date b.date a.date hbc hab⟩

/-! ## C1: determinism and shape of `compute_cluster_id` -/

theorem sortedUrls_perm {l l' : List String} (h : l.Perm l') :
    sortedUrls l = sortedUrls l' :=
  List.eq_of_perm_of_sorted
    ((List.perm_insertionSort _ _).trans (h.dedup.trans (List.perm_insertionSort _ _).symm))
    (List.sorted_insertionSort _ _) (List.sorted_insertionSort _ _)

theorem sortedUrls_append_dup {l : List String} {u : String} (h : u ∈ l) :
    sortedUrls (l ++ [u]) = sortedUrls l := by
  have hperm : (l ++ [u]).dedup.Perm l.dedup := by
    apply (List.perm_ext_iff_of_nodup (List.nodup_dedup _) (List.nodup_dedup _)).mpr
    intro x
    simp only [List.mem_dedup, List.mem_append, List.mem_singleton]
    constructor
    · rintro (hx | rfl)
      · exact hx
      · exact h
    · exact Or.inl
  exact List.eq_of_perm_of_sorted
    ((List.perm_insertionSort _ _).trans (hperm.trans (List.perm_insertionSort _ _).symm))
    (List.sorted_insertionSort _ _) (List.sorted_insertionSort _ _)

theorem sha256_length (msg : List Nat) : (sha256 msg).length = 32 := by
  simp [sha256, wordBytes]

theorem bytesToHex_length : ∀ bs : List Nat, (bytesToHex bs).length = 2 * bs.length
  | [] => rfl
  | b :: bs => by simp [bytesToHex, bytesToHex_length bs]; ring

theorem hexDigit_mem (n : Nat) : hexDigit n ∈ hexDigits := by
  rcases Nat.lt_or_ge n 16 with h | h
  · interval_cases n <;> decide
  · unfold hexDigit
    rw [List.getD_eq_default]
    · decide
    · simpa [hexDigits] using h

theorem bytesToHex_mem : ∀ (bs : List Nat) (c : Char), c ∈ bytesToHex bs → c ∈ hexDigits
  | [], _, h => absurd h (by simp [bytesToHex])
  | _ :: bs, c, h => by
    simp only [bytesToHex, List.mem_cons] at h
    rcases h with rfl | rfl | h
    · exact hexDigit_mem _
    · exact hexDigit_mem _
    · exact bytesToHex_mem bs c h

/-- **C1**: `compute_cluster_id` is the first 16 hex characters of the SHA-256
digest of the newline-join of the deduplicated, lexicographically sorted urls;
consequently it is invariant under permuting the url list and under appending
a duplicate of an existing url, and it is always a 16-character hex string. -/
theorem compute_cluster_id_spec :
    (∀ urls : List String, compute_cluster_id urls =
        String.mk ((sha256HexOf (String.intercalate "\n" (sortedUrls urls))).take 16)) ∧
    (∀ l l' : List String, l.Perm l' → compute_cluster_id l = compute_cluster_id l') ∧
    (∀ (l : List String) (u : String), u ∈ l →
        compute_cluster_id (l ++ [u]) = compute_cluster_id l) ∧
    (∀ urls : List String, (compute_cluster_id urls).length = 16 ∧
        ∀ c ∈ (compute_cluster_id urls).data, c ∈ hexDigits) := by
  refine ⟨fun _ => rfl, ?_, ?_, ?_⟩
  · intro l l' h
    unfold compute_cluster_id
    rw [sortedUrls_perm h]
  · intro l u h
    unfold compute_cluster_id
    rw [sortedUrls_append_dup h]
  · intro urls
    constructor
    · show (List.take 16 (sha256HexOf _)).length = 16
      rw [List.length_take, sha256HexOf, bytesToHex_length, sha256_length]
      omega
    · intro c hc
      exact bytesToHex_mem _ _ (List.take_subset _ _ hc)

/-- Witness for C1 at the spec's own example urls. -/
theorem compute_cluster_id_spec_witness :
    compute_cluster_id ["https://a.com", "https://b.com"] =
        compute_cluster_id ["https://b.com", "https://a.com"] ∧
    compute_cluster_id (["https://a.com", "https://b.com"] ++ ["https://a.com"]) =
        compute_cluster_id ["https://a.com", "https://b.com"] := by
  constructor
  · exact compute_cluster_id_spec.2.1 _ _ (by decide)
  · exact compute_cluster_id_spec.2.2.1 _ _ (by decide)

/-! ## C5: retention pruning -/

/-- **C5**: `apply_retention` keeps exactly the entries whose leniently parsed
last-seen is not strictly before `today - retentionDays`, returns the number
of entries removed, and never removes an entry whose last-seen fails to parse
(such an entry parses as `today`). -/
theorem apply_retention_spec (retentionDays : Nat) (today : Int)
    (entries : List HistoryEntry) :
    (∀ e, e ∈ (apply_retention retentionDays today entries).1 ↔
        e ∈ entries ∧ ¬(parse_date e.last_seen today < today - retentionDays)) ∧
    ((apply_retention retentionDays today entries).2 =
        entries.countP (fun e => parse_date e.last_seen today < today - retentionDays)) ∧
    (∀ e ∈ entries, parseDateOrd e.last_seen = none →
        e ∈ (apply_retention retentionDays today entries).1) := by
  refine ⟨?_, ?_, ?_⟩
  · intro e
    simp only [apply_retention, List.mem_filter, decide_eq_true_eq]
    exact and_congr_right (fun _ => by omega)
  · have h1 := List.length_eq_countP_add_countP
      (p := fun e : HistoryEntry => decide (today - retentionDays ≤ parse_date e.last_seen today))
      (l := entries)
    have h2 : (entries.filter
        (fun e => decide (today - retentionDays ≤ parse_date e.last_seen today))).length =
        entries.countP (fun e => decide (today - retentionDays ≤ parse_date e.last_seen today)) :=
      (List.countP_eq_length_filter _ _).symm
    have h3 : entries.countP
          (fun e => decide ¬(decide (today - retentionDays ≤ parse_date e.last_seen today) = true)) =
        entries.countP (fun e => parse_date e.last_seen today < today - retentionDays) := by
      apply List.countP_congr
      intro e _
      simp only [decide_eq_true_eq]
      omega
    simp only [apply_retention]
    rw [h2]
    omega
  · intro e he hnone
    simp only [apply_retention, List.mem_filter, decide_eq_true_eq]
    refine ⟨he, ?_⟩
    rw [parse_date, hnone, Option.getD_none]
    have : (retentionDays : Int) ≥ 0 := Int.natCast_nonneg _
    omega

/-- Witness for C5: an entry with an unparsable last-seen date is retained. -/
theorem apply_retention_spec_witness :
    (⟨"g", "Garbage", ["https://g.com"], "oops", "oops"⟩ : HistoryEntry) ∈
      (apply_retention 30 (dateOrdinal 2025 3 1)
        [⟨"old", "Old", ["https://old.com"], "2025-01-29", "2025-01-29"⟩,
         ⟨"g", "Garbage", ["https://g.com"], "oops", "oops"⟩]).1 :=
  (apply_retention_spec 30 (dateOrdinal 2025 3 1) _).2.2 _ (by decide) (by decide)

/-! ## C10: Sentinel conservation of candidates -/

theorem phase2Go_conservation (threshold : ℚ) (scores : List ℚ) :
    ∀ (cs : List DiscoveryCandidate) (i : Nat),
      (phase2Go threshold scores cs i).1.length + (phase2Go threshold scores cs i).2 = cs.length
  | [], _ => rfl
  | c :: cs, i => by
    have ih := phase2Go_conservation threshold scores cs (i + 1)
    simp only [phase2Go]
    split <;> simp <;> omega

/-- **C10**: every `Sentinel.run` invocation conserves candidates — the number
of passed candidates plus the filtered count equals the number of input
candidates, for every phase-1 predicate, threshold, and score-array outcome
(including the degraded all-1.0 path and short score arrays). -/
theorem sentinel_conservation (ruleFiltered : DiscoveryCandidate → Bool) (threshold : ℚ)
    (scoresResult : Option (List ℚ)) (cands : List DiscoveryCandidate) :
    (sentinelRun ruleFiltered threshold scoresResult cands).passed.length +
      (sentinelRun ruleFiltered threshold scoresResult cands).filtered_count =
      cands.length := by
  have hsplit : cands.length = cands.countP ruleFiltered +
      (cands.filter (fun c => !ruleFiltered c)).length := by
    rw [← List.countP_eq_length_filter]
    have := List.length_eq_countP_add_countP (p := ruleFiltered) (l := cands)
    have hc : cands.countP (fun a => decide ¬(ruleFiltered a = true)) =
        cands.countP (fun c => !ruleFiltered c) := by
      apply List.countP_congr
      intro e _
      simp
    omega
  unfold sentinelRun
  by_cases hemp : (cands.filter (fun c => !ruleFiltered c)).isEmpty
  · simp only [hemp, if_pos]
    have : (cands.filter (fun c => !ruleFiltered c)).length = 0 := by
      rw [List.isEmpty_iff] at hemp
      simp [hemp]
    simp only [List.length_nil]
    omega
  · simp only [hemp, if_neg, Bool.false_eq_true, not_false_iff]
    have hph := phase2Go_conservation threshold
      ((scoresResult.getD (List.replicate (cands.filter (fun c => !ruleFiltered c)).length 1)))
      (cands.filter (fun c => !ruleFiltered c)) 0
    omega

/-! ## C8: gateway pacing -/

/-- **C8**: with `_last_call_time > 0` recorded from a previous call, the next
dispatch happens no sooner than `CALL_DELAY` after it (the gateway sleeps for
the remainder when needed), and the very first call (`_last_call_time = 0`)
is dispatched immediately. -/
theorem gateway_pacing_spec (lastCallTime now : ℚ) :
    (0 < lastCallTime → lastCallTime + CALL_DELAY ≤ dispatchTime lastCallTime now) ∧
    (lastCallTime = 0 → paceDelay lastCallTime now = 0 ∧ dispatchTime lastCallTime now = now) := by
  constructor
  · intro hpos
    unfold dispatchTime paceDelay
    by_cases hc : lastCallTime > 0 ∧ now - lastCallTime < CALL_DELAY
    · rw [if_pos hc]
      linarith
    · rw [if_neg hc]
      have hge : ¬(now - lastCallTime < CALL_DELAY) := fun h => hc ⟨hpos, h⟩
      push_neg at hge
      linarith
  · intro h0
    unfold dispatchTime paceDelay
    rw [if_neg (by simp [h0])]
    simp

/-- Witness for C8: a previous call recorded at 5s and a new call arriving at
6s is dispatched no earlier than 7s; the first call at 6s has no delay. -/
theorem gateway_pacing_spec_witness :
    ((0 : ℚ) < 5 ∧ (5 : ℚ) + CALL_DELAY ≤ dispatchTime 5 6) ∧
    ((0 : ℚ) = 0 ∧ dispatchTime 0 6 = 6) :=
  ⟨⟨by norm_num, (gateway_pacing_spec 5 6).1 (by norm_num)⟩,
   ⟨rfl, ((gateway_pacing_spec 0 6).2 rfl).2⟩⟩

/-! ## C7: retry budget and zero-quota abort -/

theorem retryFrom_attempts_le (outcomes : Nat → CallOutcome) :
    ∀ (r a : Nat) (b : ℚ), (retryFrom outcomes a r b).2 ≤ r
  | 0, _, _ => Nat.le_refl 0
  | r + 1, a, b => by
    have ih := retryFrom_attempts_le outcomes r (a + 1) (b * 2)
    unfold retryFrom
    cases houtcome : outcomes a with
    | success t => simp
    | failure msg =>
      by_cases hz : isZeroQuotaMsg msg = true
      · simp [hz]
      · by_cases hr : r = 0
        · simp [hz, hr]
        · simp [hz, hr]
          omega

theorem retryFrom_zero_quota (outcomes : Nat → CallOutcome) (i : Nat) (msg : String)
    (hmsg : outcomes i = .failure msg) (hz : isZeroQuotaMsg msg = true) :
    ∀ (r a : Nat) (b : ℚ), a ≤ i →
      (retryFrom outcomes a r b).2 ≤ i + 1 - a ∧
      ((retryFrom outcomes a r b).2 = i + 1 - a → (retryFrom outcomes a r b).1 = none)
  | 0, a, b, hai => ⟨Nat.zero_le _, fun _ => rfl⟩
  | r + 1, a, b, hai => by
    unfold retryFrom
    cases houtcome : outcomes a with
    | success t =>
      have hne : a ≠ i := fun haeq => by
        rw [haeq, hmsg] at houtcome
        exact CallOutcome.noConfusion houtcome
      have : a < i := lt_of_le_of_ne hai hne
      refine ⟨by simp; omega, ?_⟩
      intro habs
      simp at habs
      omega
    | failure m =>
      by_cases hzm : isZeroQuotaMsg m = true
      · refine ⟨by simp [hzm]; omega, fun _ => by simp [hzm]⟩
      · have hne : a ≠ i := fun haeq => by
          rw [haeq, hmsg] at houtcome
          cases houtcome
          exact hzm hz
        have hlt : a < i := lt_of_le_of_ne hai hne
        by_cases hr : r = 0
        · refine ⟨by simp [hzm, hr]; omega, fun _ => by simp [hzm, hr]⟩
        · have ih := retryFrom_zero_quota outcomes i msg hmsg hz r (a + 1) (b * 2) (by omega)
          refine ⟨?_, ?_⟩
          · simp [hzm, hr]
            omega
          · simp only [hzm, hr, if_neg, if_false, Bool.false_eq_true, not_false_iff]
            intro heq
            have : (retryFrom outcomes (a + 1) r (b * 2)).2 = i + 1 - (a + 1) := by omega
            exact ih.2 this

/-- **C7**: the gateway retry loop issues at most 5 attempts in total; an
attempt that fails with the permanently-exhausted zero-quota signature is the
last attempt issued, and the call then fails fatally (no result); in
particular a zero-quota failure on the very first attempt yields exactly one
attempt and a fatal failure. -/
theorem gemini_retry_spec (outcomes : Nat → CallOutcome) :
    (callWithRetry outcomes).2 ≤ 5 ∧
    (∀ i msg, outcomes i = .failure msg → isZeroQuotaMsg msg = true →
        (callWithRetry outcomes).2 ≤ i + 1 ∧
        ((callWithRetry outcomes).2 = i + 1 → (callWithRetry outcomes).1 = none)) ∧
    (∀ msg, outcomes 0 = .failure msg → isZeroQuotaMsg msg = true →
        callWithRetry outcomes = (none, 1)) := by
  refine ⟨retryFrom_attempts_le outcomes 5 0 INITIAL_BACKOFF, ?_, ?_⟩
  · intro i msg hmsg hz
    have h := retryFrom_zero_quota outcomes i msg hmsg hz 5 0 INITIAL_BACKOFF (Nat.zero_le i)
    exact ⟨by simpa using h.1, fun heq => h.2 (by simpa using heq)⟩
  · intro msg hmsg hz
    show retryFrom outcomes 0 5 INITIAL_BACKOFF = (none, 1)
    unfold retryFrom
    rw [hmsg]
    simp [hz]

/-- Witness for C7: a first-attempt zero-quota failure issues exactly one
attempt and fails fatally. -/
theorem gemini_retry_spec_witness :
    ((fun _ : Nat => CallOutcome.failure "429 RESOURCE_EXHAUSTED: quota limit: 0") 0 =
        CallOutcome.failure "429 RESOURCE_EXHAUSTED: quota limit: 0") ∧
    isZeroQuotaMsg "429 RESOURCE_EXHAUSTED: quota limit: 0" = true ∧
    callWithRetry (fun _ => CallOutcome.failure "429 RESOURCE_EXHAUSTED: quota limit: 0") =
      (none, 1) :=
  ⟨rfl, by decide,
    (gemini_retry_spec (fun _ => CallOutcome.failure "429 RESOURCE_EXHAUSTED: quota limit: 0")).2.2
      _ rfl (by decide)⟩

/-! ## C6: archive-index update -/

/-- **C6**: updating the archive index for date `today` on an index with at
most one entry per date yields an index with exactly one entry for `today`
(carrying the latest story count and filename), leaves the total entry count
unchanged when `today` was already published, is sorted descending by date,
and preserves the at-most-one-entry-per-date invariant (so the guarantees
hold however many times a date is republished). -/
theorem updateArchive_spec (digests : List ArchiveEntry) (today filename : String) (n : Nat)
    (huniq : ∀ s, digests.countP (fun e => e.date == s) ≤ 1) :
    ((updateArchive digests today filename n).countP (fun e => e.date == today) = 1) ∧
    (∃ e ∈ updateArchive digests today filename n,
        e.date = today ∧ e.file = filename ∧ e.story_count = n) ∧
    ((∃ e ∈ digests, e.date = today) →
        (updateArchive digests today filename n).length = digests.length) ∧
    List.Sorted (fun a b => strLe b.date a.date = true) (updateArchive digests today filename n) ∧
    (∀ s, (updateArchive digests today filename n).countP (fun e => e.date == s) ≤ 1) := by
  have hperm : (updateArchive digests today filename n).Perm
      ((⟨today, filename, n⟩ : ArchiveEntry) ::
        digests.filter (fun e => e.date != today)) :=
    List.perm_insertionSort _ _
  have hfilter_zero : (digests.filter (fun e => e.date != today)).countP
      (fun e => e.date == today) = 0 := by
    rw [List.countP_filter, List.countP_eq_zero]
    intro e _
    by_cases h : e.date = today <;> simp [h]
  refine ⟨?_, ?_, ?_, ?_, ?_⟩
  · rw [hperm.countP_eq, List.countP_cons, hfilter_zero]
    simp
  · exact ⟨⟨today, filename, n⟩, hperm.symm.subset (List.mem_cons_self _ _), rfl, rfl, rfl⟩
  · intro ⟨e, he, hdate⟩
    have hone : digests.countP (fun e => e.date == today) = 1 := by
      have hpos : 0 < digests.countP (fun e => e.date == today) :=
        List.countP_pos_iff.mpr ⟨e, he, by simp [hdate]⟩
      have := huniq today
      omega
    have hlen : (digests.filter (fun e => e.date != today)).length =
        digests.countP (fun e => e.date != today) :=
      (List.countP_eq_length_filter _ _).symm
    have hsum := List.length_eq_countP_add_countP
      (p := fun e : ArchiveEntry => e.date == today) (l := digests)
    have hcongr : digests.countP (fun a => decide ¬(a.date == today) = true) =
        digests.countP (fun e => e.date != today) := by
      apply List.countP_congr
      intro e _
      by_cases h : e.date = today <;> simp [h]
    rw [hperm.length_eq]
    simp only [List.length_cons]
    omega
  · exact List.sorted_insertionSort _ _
  · intro s
    rw [hperm.countP_eq, List.countP_cons]
    by_cases hs : s = today
    · subst hs
      rw [hfilter_zero]
      simp
    · have hzero : ((⟨today, filename, n⟩ : ArchiveEntry).date == s) = false := by
        simp [Ne.symm hs]
      rw [hzero]
      simp only [Bool.false_eq_true, if_false]
      have hle : (digests.filter (fun e => e.date != today)).countP (fun e => e.date == s) ≤
          digests.countP (fun e => e.date == s) := by
        rw [List.countP_filter]
        apply List.countP_mono_left
        intro e _ h
        exact ((Bool.and_eq_true _ _).mp h).1
      have := huniq s
      omega

/-- Witness for C6: republishing 2026-10-12 replaces its entry, keeps one
entry per date, leaves the length unchanged, and keeps the index sorted. -/
theorem updateArchive_spec_witness :
    ((updateArchive [⟨"2026-10-12", "b.json", 1⟩, ⟨"2026-10-10", "a.json", 3⟩]
        "2026-10-12" "2026-10-12.json" 7).countP (fun e => e.date == "2026-10-12") = 1) ∧
    (∃ e ∈ updateArchive [⟨"2026-10-12", "b.json", 1⟩, ⟨"2026-10-10", "a.json", 3⟩]
        "2026-10-12" "2026-10-12.json" 7,
        e.date = "2026-10-12" ∧ e.file = "2026-10-12.json" ∧ e.story_count = 7) ∧
    ((updateArchive [⟨"2026-10-12", "b.json", 1⟩, ⟨"2026-10-10", "a.json", 3⟩]
        "2026-10-12" "2026-10-12.json" 7).length = 2) := by
  have hu : ∀ s : String, List.countP (fun e => e.date == s)
      [(⟨"2026-10-12", "b.json", 1⟩ : ArchiveEntry), ⟨"2026-10-10", "a.json", 3⟩] ≤ 1 := by
    intro s
    by_cases h1 : s = "2026-10-12"
    · subst h1
      decide
    · by_cases h2 : s = "2026-10-10"
      · subst h2
        decide
      · have e1 : (("2026-10-12" : String) == s) = false := by simp [Ne.symm h1]
        have e2 : (("2026-10-10" : String) == s) = false := by simp [Ne.symm h2]
        simp [List.countP_cons, e1, e2]
  have h := updateArchive_spec [⟨"2026-10-12", "b.json", 1⟩, ⟨"2026-10-10", "a.json", 3⟩]
    "2026-10-12" "2026-10-12.json" 7 hu
  exact ⟨h.1, h.2.1, h.2.2.1 ⟨⟨"2026-10-12", "b.json", 1⟩, by decide, rfl⟩⟩

/-! ## C2 and C4: Architect clustering loop -/

/-- Anatomy of a successfully built cluster: the member list, id, label,
duplicate flag, and the representative-url resolution. -/
theorem processRawCluster_some {cands : List FilteredCandidate} {historyUrls : List String}
    {rc : RawClusterItem} {c : EventCluster}
    (h : processRawCluster cands historyUrls rc = some (some c)) :
    ∃ cc, memberCandidates cands rc.candidate_indices = some cc ∧
      cc ≠ [] ∧
      c.candidates = cc ∧
      c.label = rc.label ∧
      c.cluster_id = compute_cluster_id (cc.map FilteredCandidate.url) ∧
      c.is_duplicate_of_history = isDupOfHistory historyUrls (cc.map FilteredCandidate.url) ∧
      ∃ bestIdx : Int,
        ((rc.best_index < (cands.length : Int) ∧ bestIdx = rc.best_index) ∨
         (¬rc.best_index < (cands.length : Int) ∧
            pyGet rc.candidate_indices 0 = some bestIdx)) ∧
        ((bestIdx < (cands.length : Int) ∧
            ∃ cand, pyGet cands bestIdx = some cand ∧ c.best_url = cand.url) ∨
         (¬bestIdx < (cands.length : Int) ∧
            pyGet (cc.map FilteredCandidate.url) 0 = some c.best_url)) := by
  unfold processRawCluster at h
  split at h
  · exact absurd h (by simp)
  rename_i cc hcc
  split at h
  · rename_i hemp
    exact absurd h (by simp)
  rename_i hemp
  split at h
  · exact absurd h (by simp)
  rename_i hbiMatch bestIdx hbi
  have hne : cc ≠ [] := fun habs => hemp (by simp [habs])
  have hbiFact : (rc.best_index < (cands.length : Int) ∧ bestIdx = rc.best_index) ∨
      (¬rc.best_index < (cands.length : Int) ∧
        pyGet rc.candidate_indices 0 = some bestIdx) := by
    by_cases hlt : rc.best_index < (cands.length : Int)
    · rw [if_pos hlt] at hbi
      exact Or.inl ⟨hlt, (Option.some.inj hbi).symm⟩
    · rw [if_neg hlt] at hbi
      exact Or.inr ⟨hlt, hbi⟩
  split at h
  · exact absurd h (by simp)
  rename_i hbuMatch bestUrl hbu
  have hc : c = { cluster_id := compute_cluster_id (cc.map FilteredCandidate.url),
                  label := rc.label, candidates := cc, best_url := bestUrl,
                  is_duplicate_of_history :=
                    isDupOfHistory historyUrls (cc.map FilteredCandidate.url) } := by
    simpa using h.symm
  subst hc
  by_cases hlt : bestIdx < (cands.length : Int)
  · rw [if_pos hlt] at hbu
    obtain ⟨cand, hcand, hurl⟩ := Option.map_eq_some'.mp hbu
    exact ⟨cc, hcc, hne, rfl, rfl, rfl, rfl, bestIdx, hbiFact,
      Or.inl ⟨hlt, cand, hcand, hurl.symm⟩⟩
  · rw [if_neg hlt] at hbu
    exact ⟨cc, hcc, hne, rfl, rfl, rfl, rfl, bestIdx, hbiFact, Or.inr ⟨hlt, hbu⟩⟩

/-- The step-2 loop processes the raw clusters in order, appending the
survivors and counting the flagged duplicates. -/
theorem architectLoop_eq (cands : List FilteredCandidate) (hu : List String) :
    ∀ (rcs : List RawClusterItem) (bs : List (Option EventCluster))
      (acc : List EventCluster) (d : Nat),
      rcs.mapM (processRawCluster cands hu) = some bs →
      architectLoop cands hu rcs acc d =
        some (acc ++ bs.reduceOption.filter (fun c => !c.is_duplicate_of_history),
              d + bs.reduceOption.countP (fun c => c.is_duplicate_of_history))
  | [], bs, acc, d, h => by
    simp only [List.mapM_nil, pure, Option.some.injEq] at h
    subst h
    simp [architectLoop, List.reduceOption]
  | rc :: rest, bs, acc, d, h => by
    rw [List.mapM_cons] at h
    simp only [bind, Option.bind_eq_some, pure, Option.some.injEq] at h
    obtain ⟨b, hb, bs', hbs', hcons⟩ := h
    subst hcons
    cases b with
    | none =>
      have hstep : architectLoop cands hu (rc :: rest) acc d =
          architectLoop cands hu rest acc d := by
        simp [architectLoop, hb]
      rw [hstep, architectLoop_eq cands hu rest bs' acc d hbs']
      simp [List.reduceOption_cons_of_none]
    | some ec =>
      by_cases hdup : ec.is_duplicate_of_history = true
      · have hstep : architectLoop cands hu (rc :: rest) acc d =
            architectLoop cands hu rest acc (d + 1) := by
          simp [architectLoop, hb, hdup]
        rw [hstep, architectLoop_eq cands hu rest bs' acc (d + 1) hbs']
        simp only [List.reduceOption_cons_of_some, List.filter_cons, hdup,
          Bool.not_true, List.countP_cons, Option.some.injEq, Prod.mk.injEq, if_true]
        refine ⟨by simp, by omega⟩
      · have hdup' : ec.is_duplicate_of_history = false := by
          cases hflag : ec.is_duplicate_of_history
          · rfl
          · exact absurd hflag hdup
        have hstep : architectLoop cands hu (rc :: rest) acc d =
            architectLoop cands hu rest (acc ++ [ec]) d := by
          simp [architectLoop, hb, hdup']
        rw [hstep, architectLoop_eq cands hu rest bs' (acc ++ [ec]) d hbs']
        simp only [List.reduceOption_cons_of_some, List.filter_cons, hdup',
          Bool.not_false, if_pos, List.countP_cons, Option.some.injEq, Prod.mk.injEq,
          Bool.false_eq_true, if_false]
        refine ⟨by simp, by omega⟩

/-- Over `ℚ`, `n / 2 < o` for naturals `o`, `n` iff `n < 2 * o`. -/
theorem half_lt_iff (n o : Nat) : ((n : ℚ) / 2 < (o : ℚ)) ↔ n < 2 * o := by
  rw [div_lt_iff₀ (by norm_num : (0 : ℚ) < 2)]
  have h2 : ((o : ℚ) * 2) = ((2 * o : Nat) : ℚ) := by push_cast; ring
  rw [h2]
  exact Nat.cast_lt

/-- **C2**: a built cluster is flagged duplicate iff strictly more than half
of its member urls (with multiplicity) occur among the dedup-window history
urls — exactly half is NOT flagged — and step 2 of `Architect.run` excludes
every flagged cluster from the output list, counting it in `deduped_count`
instead. -/
theorem architect_dedup_spec :
    (∀ (window : List HistoryEntry) (cands : List FilteredCandidate)
        (rc : RawClusterItem) (c : EventCluster),
        processRawCluster cands (historyUrlsOf window) rc = some (some c) →
        ((c.is_duplicate_of_history = true ↔
            (((c.candidates.map FilteredCandidate.url).countP
                (fun u => (historyUrlsOf window).contains u) : ℚ) >
              ((c.candidates.map FilteredCandidate.url).length : ℚ) / 2)) ∧
         (((c.candidates.map FilteredCandidate.url).countP
              (fun u => (historyUrlsOf window).contains u) : ℚ) =
            ((c.candidates.map FilteredCandidate.url).length : ℚ) / 2 →
          c.is_duplicate_of_history = false))) ∧
    (∀ (window : List HistoryEntry) (cands : List FilteredCandidate)
        (rcs : List RawClusterItem) (bs : List (Option EventCluster)),
        rcs.mapM (processRawCluster cands (historyUrlsOf window)) = some bs →
        architectStep2 cands rcs window =
          some { clusters := bs.reduceOption.filter (fun c => !c.is_duplicate_of_history),
                 deduped_count :=
                   bs.reduceOption.countP (fun c => c.is_duplicate_of_history) }) := by
  constructor
  · intro window cands rc c h
    obtain ⟨cc, _, _, hcand, _, _, hdup, _⟩ := processRawCluster_some h
    have hiff : c.is_duplicate_of_history = true ↔
        (((c.candidates.map FilteredCandidate.url).countP
            (fun u => (historyUrlsOf window).contains u) : ℚ) >
          ((c.candidates.map FilteredCandidate.url).length : ℚ) / 2) := by
      rw [hdup, hcand, isDupOfHistory, decide_eq_true_eq, gt_iff_lt, gt_iff_lt,
        half_lt_iff]
    refine ⟨hiff, fun heq => ?_⟩
    cases hflag : c.is_duplicate_of_history
    · rfl
    · have := hiff.mp hflag
      rw [heq] at this
      exact absurd this (lt_irrefl _)
  · intro window cands rcs bs h
    unfold architectStep2
    rw [architectLoop_eq cands (historyUrlsOf window) rcs bs [] 0 h]
    simp

set_option maxRecDepth 10000 in
/-- Witness for C2 at the spec's dedup boundary: a 2-url cluster with 1 url in
history survives (1 is not > 1), while one with both urls in history is
dropped and counted in `deduped_count`. -/
theorem architect_dedup_spec_witness :
    (architectStep2 [{ url := "https://a.com" }, { url := "https://b.com" }]
        [⟨"ev", [0, 1], 0⟩] [⟨"h", "l", ["https://a.com"], "", ""⟩] =
      some { clusters := [{ cluster_id := "75ce26fa935c7a54", label := "ev",
                            candidates := [{ url := "https://a.com" },
                                           { url := "https://b.com" }],
                            best_url := "https://a.com",
                            is_duplicate_of_history := false }],
             deduped_count := 0 }) ∧
    (architectStep2 [{ url := "https://a.com" }, { url := "https://b.com" }]
        [⟨"ev", [0, 1], 0⟩]
        [⟨"h", "l", ["https://a.com", "https://b.com"], "", ""⟩] =
      some { clusters := [], deduped_count := 1 }) := by
  have h1 := architect_dedup_spec.2 [⟨"h", "l", ["https://a.com"], "", ""⟩]
    [{ url := "https://a.com" }, { url := "https://b.com" }] [⟨"ev", [0, 1], 0⟩]
    [some { cluster_id := "75ce26fa935c7a54", label := "ev",
            candidates := [{ url := "https://a.com" }, { url := "https://b.com" }],
            best_url := "https://a.com", is_duplicate_of_history := false }] (by decide)
  have h2 := architect_dedup_spec.2 [⟨"h", "l", ["https://a.com", "https://b.com"], "", ""⟩]
    [{ url := "https://a.com" }, { url := "https://b.com" }] [⟨"ev", [0, 1], 0⟩]
    [some { cluster_id := "75ce26fa935c7a54", label := "ev",
            candidates := [{ url := "https://a.com" }, { url := "https://b.com" }],
            best_url := "https://a.com", is_duplicate_of_history := true }] (by decide)
  constructor
  · rw [h1]
    decide
  · rw [h2]
    decide

/-- **C4** (amended): the representative url of a built cluster is resolved as
the code does: the candidate at the external best index whenever
`best_index < len(candidates)` — Python semantics, so negative indices resolve
from the end of the list; otherwise the candidate at the group's first member
index `m` whenever `m < len(candidates)` (again Python semantics); otherwise
the url of the group's first in-range member.  (Indices below
`-len(candidates)` raise `IndexError`, i.e. no cluster is produced.) -/
theorem architect_representative_spec (cands : List FilteredCandidate)
    (hu : List String) (rc : RawClusterItem) (c : EventCluster)
    (h : processRawCluster cands hu rc = some (some c)) :
    (rc.best_index < (cands.length : Int) →
        ∃ cand, pyGet cands rc.best_index = some cand ∧ c.best_url = cand.url) ∧
    (¬rc.best_index < (cands.length : Int) →
        ∃ m, pyGet rc.candidate_indices 0 = some m ∧
          ((m < (cands.length : Int) →
              ∃ cand, pyGet cands m = some cand ∧ c.best_url = cand.url) ∧
           (¬m < (cands.length : Int) →
              pyGet (c.candidates.map FilteredCandidate.url) 0 = some c.best_url))) := by
  obtain ⟨cc, _, _, hcand, _, _, _, bestIdx, hbi, hbu⟩ := processRawCluster_some h
  constructor
  · intro hlt
    rcases hbi with ⟨_, rfl⟩ | ⟨hnlt, _⟩
    · rcases hbu with ⟨_, cand, hcand', hurl⟩ | ⟨hnlt', _⟩
      · exact ⟨cand, hcand', hurl⟩
      · exact absurd hlt hnlt'
    · exact absurd hlt hnlt
  · intro hnlt
    rcases hbi with ⟨hlt, _⟩ | ⟨_, hm⟩
    · exact absurd hlt hnlt
    · refine ⟨bestIdx, hm, ?_, ?_⟩
      · intro hlt'
        rcases hbu with ⟨_, cand, hcand', hurl⟩ | ⟨hnlt', _⟩
        · exact ⟨cand, hcand', hurl⟩
        · exact absurd hlt' hnlt'
      · intro hnlt'
        rcases hbu with ⟨hlt', _⟩ | ⟨_, hurl⟩
        · exact absurd hlt' hnlt'
        · rw [hcand]
          exact hurl

set_option maxRecDepth 10000 in
/-- **C4 counterexample**: with candidates `[a, b]`, the group
`indices = [0], best_index = -1` has a valid in-range member set `{0}` and an
out-of-range best index under the claim's non-negative reading, yet the built
representative is `b` (Python resolves `-1` to the LAST candidate), not the
first group member `a`; and the group `indices = [5, 1], best_index = 9` falls
back to first member index 5, at which NO candidate exists (`pyGet` is
`none`), the code instead using the first in-range member's url `b`. -/
theorem architect_representative_counterexample :
    (processRawCluster [{ url := "https://a.com" }, { url := "https://b.com" }] []
        ⟨"g", [0], -1⟩ =
      some (some { cluster_id := "4b59642f5a13d013", label := "g",
                   candidates := [{ url := "https://a.com" }],
                   best_url := "https://b.com", is_duplicate_of_history := false })) ∧
    ¬(0 ≤ (-1 : Int)) ∧
    ("https://b.com" : String) ≠ "https://a.com" ∧
    (processRawCluster [{ url := "https://a.com" }, { url := "https://b.com" }] []
        ⟨"g", [5, 1], 9⟩ =
      some (some { cluster_id := "d6fd2a8e03cac6d7", label := "g",
                   candidates := [{ url := "https://b.com" }],
                   best_url := "https://b.com", is_duplicate_of_history := false })) ∧
    pyGet ([{ url := "https://a.com" }, { url := "https://b.com" }] :
      List FilteredCandidate) 5 = none := by
  refine ⟨by decide, by decide, by decide, by decide, by decide⟩

set_option maxRecDepth 10000 in
/-- Witness for C4 (amended) at an in-range best index. -/
theorem architect_representative_spec_witness :
    ∃ cand, pyGet ([{ url := "https://a.com" }, { url := "https://b.com" }] :
        List FilteredCandidate) 1 = some cand ∧
      ({ cluster_id := "75ce26fa935c7a54", label := "ev",
         candidates := [{ url := "https://a.com" }, { url := "https://b.com" }],
         best_url := "https://b.com",
         is_duplicate_of_history := false } : EventCluster).best_url = cand.url :=
  (architect_representative_spec
    [{ url := "https://a.com" }, { url := "https://b.com" }] []
    ⟨"ev", [0, 1], 1⟩ _ (by decide)).1 (by decide)

/-! ## C3 and C9: history merge semantics -/

/-- `updateLast` replaces the last match in place. -/
theorem updateLast_eq_set {α : Type _} (p : α → Bool) (f : α → α) :
    ∀ l : List α, l.any p = true →
      ∃ i, ∃ hi : i < l.length, p (l.get ⟨i, hi⟩) = true ∧
        updateLast p f l = l.set i (f (l.get ⟨i, hi⟩))
  | [], h => by simp at h
  | x :: xs, h => by
    by_cases hxs : xs.any p = true
    · obtain ⟨i, hi, hp, heq⟩ := updateLast_eq_set p f xs hxs
      refine ⟨i + 1, by simpa using Nat.succ_lt_succ hi, by simpa using hp, ?_⟩
      simp only [updateLast, hxs, if_pos, List.set_cons_succ]
      rw [heq]
      simp
    · have hx : p x = true := by
        rcases List.any_eq_true.mp h with ⟨a, ha, hpa⟩
        rcases List.mem_cons.mp ha with rfl | hmem
        · exact hpa
        · exact absurd (List.any_eq_true.mpr ⟨a, hmem, hpa⟩) (by simp [hxs])
      refine ⟨0, by simp, hx, ?_⟩
      simp [updateLast, hxs, hx]

/-- `add_entries` with a single resighted entry sets the last entry carrying
that cluster id to its merge. -/
theorem add_entries_single (todayIso : String) (st : List HistoryEntry) (e : HistoryEntry)
    (h : st.any (fun x => x.cluster_id == e.cluster_id) = true) :
    ∃ i, ∃ hi : i < st.length,
      (st.get ⟨i, hi⟩).cluster_id = e.cluster_id ∧
      add_entries todayIso st [e] =
        st.set i (mergeEntry todayIso e (st.get ⟨i, hi⟩)) := by
  obtain ⟨i, hi, hp, heq⟩ :=
    updateLast_eq_set (fun x => x.cluster_id == e.cluster_id) (mergeEntry todayIso e) st h
  refine ⟨i, hi, by simpa using hp, ?_⟩
  simp only [add_entries, List.foldl_cons, List.foldl_nil, addOneEntry, h, if_pos]
  exact heq

theorem countP_set_congr {α : Type _} (p : α → Bool) :
    ∀ (l : List α) (i : Nat) (v : α) (hi : i < l.length),
      p v = p (l.get ⟨i, hi⟩) → (l.set i v).countP p = l.countP p
  | [], i, v, hi, _ => by simp at hi
  | x :: xs, 0, v, _, h => by
    simp only [List.get] at h
    simp [List.set_cons_zero, List.countP_cons, h]
  | x :: xs, i + 1, v, hi, h => by
    have ih := countP_set_congr p xs i v (by simpa using hi) (by simpa using h)
    simp [List.set_cons_succ, List.countP_cons, ih]

/-- **C3** (amended): adding an entry whose cluster id has exactly one entry
in the store keeps exactly one entry for that id (no duplicate entry), with
urls the set-union of the old and new urls, and with last-seen set to the NEW
entry's last-seen (`today` when blank).  This equals the later of the old and
new values whenever the new last-seen is not earlier than the old — as in
every pipeline-produced call, which stamps today — but the code takes the new
value, not a maximum. -/
theorem add_entries_merge_spec (todayIso : String) (st : List HistoryEntry) (e : HistoryEntry)
    (h : st.countP (fun x => x.cluster_id == e.cluster_id) = 1) :
    ((add_entries todayIso st [e]).countP (fun x => x.cluster_id == e.cluster_id) = 1) ∧
    ((add_entries todayIso st [e]).length = st.length) ∧
    (∃ old newE, old ∈ st ∧ old.cluster_id = e.cluster_id ∧
      newE ∈ add_entries todayIso st [e] ∧ newE.cluster_id = e.cluster_id ∧
      (∀ u, u ∈ newE.urls ↔ u ∈ old.urls ∨ u ∈ e.urls) ∧
      newE.last_seen = (if e.last_seen = "" then todayIso else e.last_seen)) := by
  have hany : st.any (fun x => x.cluster_id == e.cluster_id) = true := by
    rw [List.any_eq_true]
    have : 0 < st.countP (fun x => x.cluster_id == e.cluster_id) := by omega
    exact List.countP_pos_iff.mp this
  obtain ⟨i, hi, hid, heq⟩ := add_entries_single todayIso st e hany
  have hmerge_id : (mergeEntry todayIso e (st.get ⟨i, hi⟩)).cluster_id =
      (st.get ⟨i, hi⟩).cluster_id := rfl
  refine ⟨?_, ?_, ?_⟩
  · rw [heq, countP_set_congr _ st i _ hi (by rw [hmerge_id]), h]
  · rw [heq, List.length_set]
  · refine ⟨st.get ⟨i, hi⟩, mergeEntry todayIso e (st.get ⟨i, hi⟩),
      List.get_mem st i hi, hid, ?_, by rw [hmerge_id]; exact hid, ?_, rfl⟩
    · rw [heq]
      have := List.getElem?_set_eq_of_lt (mergeEntry todayIso e (st.get ⟨i, hi⟩))
        (l := st) (n := i) hi
      exact List.getElem?_mem this
    · intro u
      simp [mergeEntry, pySetUnionList, List.mem_dedup, List.mem_append]

/-- Witness for C3 (amended), mirroring the repository's own merge test. -/
theorem add_entries_merge_spec_witness :
    ((add_entries "2025-01-02"
        [⟨"c1", "Event", ["https://a.com"], "2025-01-01", "2025-01-01"⟩]
        [⟨"c1", "Event", ["https://b.com"], "", "2025-01-02"⟩]).countP
      (fun x => x.cluster_id == "c1") = 1) ∧
    ((add_entries "2025-01-02"
        [⟨"c1", "Event", ["https://a.com"], "2025-01-01", "2025-01-01"⟩]
        [⟨"c1", "Event", ["https://b.com"], "", "2025-01-02"⟩]).length = 1) ∧
    (∃ old newE,
      old ∈ [(⟨"c1", "Event", ["https://a.com"], "2025-01-01", "2025-01-01"⟩ : HistoryEntry)] ∧
      old.cluster_id = "c1" ∧
      newE ∈ add_entries "2025-01-02"
        [⟨"c1", "Event", ["https://a.com"], "2025-01-01", "2025-01-01"⟩]
        [⟨"c1", "Event", ["https://b.com"], "", "2025-01-02"⟩] ∧
      newE.cluster_id = "c1" ∧
      (∀ u, u ∈ newE.urls ↔ u ∈ old.urls ∨
          u ∈ [("https://b.com" : String)]) ∧
      newE.last_seen = (if ("2025-01-02" : String) = "" then "2025-01-02"
        else "2025-01-02")) :=
  add_entries_merge_spec "2025-01-02"
    [⟨"c1", "Event", ["https://a.com"], "2025-01-01", "2025-01-01"⟩]
    ⟨"c1", "Event", ["https://b.com"], "", "2025-01-02"⟩ (by decide)

/-- **C3 counterexample**: resighting with an EARLIER last-seen ("2025-01-05"
against a stored "2025-01-10") overwrites the stored last-seen with the
earlier value, not with the later of the two. -/
theorem add_entries_merge_counterexample :
    ((add_entries "2026-10-12"
        [⟨"c1", "Event", ["https://a.com"], "2025-01-01", "2025-01-10"⟩]
        [⟨"c1", "Event", ["https://b.com"], "2025-01-01", "2025-01-05"⟩]).map
      HistoryEntry.last_seen = ["2025-01-05"]) ∧
    ((if strLe "2025-01-10" "2025-01-05" = true then ("2025-01-05" : String)
      else "2025-01-10") = "2025-01-10") ∧
    ("2025-01-05" : String) ≠ "2025-01-10" := by
  refine ⟨by decide, by decide, by decide⟩

/-- **C9**: resighting an existing cluster id mutates exactly one entry in
place: its cluster id, label and first-seen are unchanged (only urls and
last-seen are rewritten), every other position of the store is unchanged, and
the order and number of entries are unchanged. -/
theorem add_entries_frame_spec (todayIso : String) (st : List HistoryEntry) (e : HistoryEntry)
    (h : st.any (fun x => x.cluster_id == e.cluster_id) = true) :
    ((add_entries todayIso st [e]).length = st.length) ∧
    ∃ i, ∃ hi : i < st.length,
      (st.get ⟨i, hi⟩).cluster_id = e.cluster_id ∧
      (∀ j, j ≠ i → (add_entries todayIso st [e])[j]? = st[j]?) ∧
      ((add_entries todayIso st [e])[i]? =
        some (mergeEntry todayIso e (st.get ⟨i, hi⟩))) ∧
      (mergeEntry todayIso e (st.get ⟨i, hi⟩)).cluster_id = (st.get ⟨i, hi⟩).cluster_id ∧
      (mergeEntry todayIso e (st.get ⟨i, hi⟩)).label = (st.get ⟨i, hi⟩).label ∧
      (mergeEntry todayIso e (st.get ⟨i, hi⟩)).first_seen = (st.get ⟨i, hi⟩).first_seen := by
  obtain ⟨i, hi, hid, heq⟩ := add_entries_single todayIso st e h
  refine ⟨by rw [heq, List.length_set], i, hi, hid, ?_, ?_, rfl, rfl, rfl⟩
  · intro j hj
    rw [heq]
    exact List.getElem?_set_ne (Ne.symm hj)
  · rw [heq]
    exact List.getElem?_set_eq_of_lt _ hi

/-- Witness for C9 on a two-entry store: resighting `c2` keeps the store at
two entries. -/
theorem add_entries_frame_spec_witness :
    (add_entries "2026-10-12"
        [⟨"c1", "Event1", ["https://a.com"], "2025-01-01", "2025-01-01"⟩,
         ⟨"c2", "Event2", ["https://b.com"], "2025-01-02", "2025-01-02"⟩]
        [⟨"c2", "Other", ["https://c.com"], "", "2026-10-12"⟩]).length = 2 :=
  (add_entries_frame_spec "2026-10-12"
    [⟨"c1", "Event1", ["https://a.com"], "2025-01-01", "2025-01-01"⟩,
     ⟨"c2", "Event2", ["https://b.com"], "2025-01-02", "2025-01-02"⟩]
    ⟨"c2", "Other", ["https://c.com"], "", "2026-10-12"⟩ (by decide)).1

end Curator
